import Mathlib

/-!
Verification of the tapes conversation-recording subsystem: the
content-addressed Merkle node model, the turn builder, the in-memory
storage driver, the worker-pool store-then-publish loop, the event
envelope, and the Kafka publisher wire format.

The publisher package (event constructor, Kafka publisher) is embedded
from the Go sources in pkg/publisher.  The merkle node model, the turn
builder, the in-memory driver and the worker pool are not present in the
source tree (only their tests and callers are); they are modelled from
the specification, with each such definition marked in its doc comment.
-/

namespace Tapes

/-! ## SHA-256 over byte lists

Modelled from the spec: section 4.1 defines a node hash as the SHA-256
digest of the canonical encoding, rendered as lowercase hex.  The hash
function itself is the standard FIPS 180-4 SHA-256, implemented here
over lists of byte values (Nat below 256) with 32-bit words as Nat
reduced modulo 2^32. -/

/-- Modulus of 32-bit words, 2 to the 32nd power. -/
def m32 : Nat := 4294967296

/-- Rotate a 32-bit word right by n bits. -/
def rotr (n x : Nat) : Nat := (x / 2 ^ n) + ((x % 2 ^ n) * 2 ^ (32 - n)) % m32

/-- Shift a 32-bit word right by n bits. -/
def shr (n x : Nat) : Nat := x / 2 ^ n

/-- Bitwise choice function of SHA-256. -/
def ch (x y z : Nat) : Nat := (x &&& y) ^^^ ((m32 - 1 - x) &&& z)

/-- Bitwise majority function of SHA-256. -/
def maj (x y z : Nat) : Nat := (x &&& y) ^^^ (x &&& z) ^^^ (y &&& z)

/-- Big sigma-0 mixing function of SHA-256. -/
def bigSigma0 (x : Nat) : Nat := rotr 2 x ^^^ rotr 13 x ^^^ rotr 22 x

/-- Big sigma-1 mixing function of SHA-256. -/
def bigSigma1 (x : Nat) : Nat := rotr 6 x ^^^ rotr 11 x ^^^ rotr 25 x

/-- Small sigma-0 schedule function of SHA-256. -/
def smallSigma0 (x : Nat) : Nat := rotr 7 x ^^^ rotr 18 x ^^^ shr 3 x

/-- Small sigma-1 schedule function of SHA-256. -/
def smallSigma1 (x : Nat) : Nat := rotr 17 x ^^^ rotr 19 x ^^^ shr 10 x

/-- Round constants of SHA-256, in decimal. -/
def kconst : List Nat :=
  [1116352408, 1899447441, 3049323471, 3921009573, 961987163, 1508970993,
   2453635748, 2870763221, 3624381080, 310598401, 607225278, 1426881987,
   1925078388, 2162078206, 2614888103, 3248222580, 3835390401, 4022224774,
   264347078, 604807628, 770255983, 1249150122, 1555081692, 1996064986,
   2554220882, 2821834349, 2952996808, 3210313671, 3336571891, 3584528711,
   113926993, 338241895, 666307205, 773529912, 1294757372, 1396182291,
   1695183700, 1986661051, 2177026350, 2456956037, 2730485921, 2820302411,
   3259730800, 3345764771, 3516065817, 3600352804, 4094571909, 275423344,
   430227734, 506948616, 659060556, 883997877, 958139571, 1322822218,
   1537002063, 1747873779, 1955562222, 2024104815, 2227730452, 2361852424,
   2428436474, 2756734187, 3204031479, 3329325298]

/-- Initial hash value of SHA-256, in decimal. -/
def hinit : List Nat :=
  [1779033703, 3144134277, 1013904242, 2773480762,
   1359893119, 2600822924, 528734635, 1541459225]

/-- Extend 16 message words to 64 schedule words; the accumulator holds the
words produced so far, most recent first. -/
def extendSchedule : Nat → List Nat → List Nat
  | 0, w => w.reverse
  | n + 1, w =>
    let w2 := w.getD 1 0
    let w7 := w.getD 6 0
    let w15 := w.getD 14 0
    let w16 := w.getD 15 0
    let next := (smallSigma1 w2 + w7 + smallSigma0 w15 + w16) % m32
    extendSchedule n (next :: w)

/-- Working registers of the SHA-256 compression loop. -/
structure Regs where
  a : Nat
  b : Nat
  c : Nat
  d : Nat
  e : Nat
  f : Nat
  g : Nat
  h : Nat

/-- One SHA-256 compression round. -/
def round (r : Regs) (ki wi : Nat) : Regs :=
  let t1 := (r.h + bigSigma1 r.e + ch r.e r.f r.g + ki + wi) % m32
  let t2 := (bigSigma0 r.a + maj r.a r.b r.c) % m32
  { a := (t1 + t2) % m32, b := r.a, c := r.b, d := r.c,
    e := (r.d + t1) % m32, f := r.e, g := r.f, h := r.g }

/-- Run the 64 compression rounds over the paired constants and schedule. -/
def rounds : Regs → List Nat → List Nat → Regs
  | r, ki :: ks, wi :: ws => rounds (round r ki wi) ks ws
  | r, _, _ => r

/-- Compress one 64-byte block, given as 16 words, into the running hash. -/
def compress (hs : List Nat) (block : List Nat) : List Nat :=
  let w := extendSchedule 48 block.reverse
  let r0 : Regs := { a := hs.getD 0 0, b := hs.getD 1 0, c := hs.getD 2 0, d := hs.getD 3 0,
                     e := hs.getD 4 0, f := hs.getD 5 0, g := hs.getD 6 0, h := hs.getD 7 0 }
  let r := rounds r0 kconst w
  [(hs.getD 0 0 + r.a) % m32, (hs.getD 1 0 + r.b) % m32, (hs.getD 2 0 + r.c) % m32,
   (hs.getD 3 0 + r.d) % m32, (hs.getD 4 0 + r.e) % m32, (hs.getD 5 0 + r.f) % m32,
   (hs.getD 6 0 + r.g) % m32, (hs.getD 7 0 + r.h) % m32]

/-- Group a byte list into 32-bit big-endian words. -/
def bytesToWords : List Nat → List Nat
  | b0 :: b1 :: b2 :: b3 :: rest =>
    (((b0 * 256 + b1) * 256 + b2) * 256 + b3) :: bytesToWords rest
  | _ => []

/-- Split the padded word stream into 16-word blocks and fold the compression. -/
def compressBlocks : List Nat → List Nat → List Nat
  | hs, w0 :: w1 :: w2 :: w3 :: w4 :: w5 :: w6 :: w7 ::
        w8 :: w9 :: w10 :: w11 :: w12 :: w13 :: w14 :: w15 :: rest =>
    compressBlocks
      (compress hs [w0, w1, w2, w3, w4, w5, w6, w7, w8, w9, w10, w11, w12, w13, w14, w15]) rest
  | hs, _ => hs

/-- Big-endian byte rendering of a number, w bytes wide. -/
def beBytes : Nat → Nat → List Nat
  | 0, _ => []
  | w + 1, x => beBytes w (x / 256) ++ [x % 256]

/-- SHA-256 padding: append 0x80, zeros up to 56 mod 64, then the 64-bit
bit length, big endian. -/
def padMessage (msg : List Nat) : List Nat :=
  let len := msg.length
  let zeros := (55 + 64 - len % 64) % 64
  msg ++ 0x80 :: List.replicate zeros 0 ++ beBytes 8 (len * 8)

/-- SHA-256 digest of a byte list, as a list of 32 bytes. -/
def sha256 (msg : List Nat) : List Nat :=
  (compressBlocks hinit (bytesToWords (padMessage msg))).foldr
    (fun w acc => beBytes 4 w ++ acc) []

/-- Lowercase hex digit for a value below 16. -/
def hexDigit (n : Nat) : Char := if n < 10 then Char.ofNat (48 + n) else Char.ofNat (87 + n)

/-- Lowercase hex rendering of a byte list. -/
def bytesToHex (bs : List Nat) : String :=
  String.mk (bs.foldr (fun b acc => hexDigit (b / 16) :: hexDigit (b % 16) :: acc) [])

/-- UTF-8 encoding of a string as a byte list. -/
def utf8Bytes (s : String) : List Nat :=
  s.data.foldr (fun c acc =>
    let n := c.toNat
    if n < 0x80 then n :: acc
    else if n < 0x800 then (0xc0 + n / 64) :: (0x80 + n % 64) :: acc
    else if n < 0x10000 then
      (0xe0 + n / 4096) :: (0x80 + n / 64 % 64) :: (0x80 + n % 64) :: acc
    else
      (0xf0 + n / 262144) :: (0x80 + n / 4096 % 64) :: (0x80 + n / 64 % 64) ::
        (0x80 + n % 64) :: acc) []

/-- SHA-256 digest of the UTF-8 bytes of a string, as lowercase hex. -/
def sha256Hex (s : String) : String := bytesToHex (sha256 (utf8Bytes s))

/-! ## Shared message types

Modelled from the spec: sections 3.1 and 3.2 define the neutral message
representation of the llm package (ContentBlock, Message, Usage,
ChatRequest, ChatResponse), whose Go source is not in the tree; the
field shapes follow the spec and the test fixtures that construct them.
The source holds all block fields in a single struct discriminated by
the type field (spec section 9); tool inputs, a mapping of string keys
to arbitrary JSON values in the source, are modelled as string-to-string
entries, which no claim exercises. -/

/-- Timestamps are carried opaquely; they are modelled as their RFC3339
rendering, which is how they appear on the JSON wire. -/
abbrev Timestamp := String

/-- One content block of a message: a tagged union held flat. -/
structure ContentBlock where
  type : String := ""
  text : String := ""
  imageURL : String := ""
  toolUseID : String := ""
  toolName : String := ""
  toolInput : List (String × String) := []
  toolResultID : String := ""
  toolOutput : String := ""
  isError : Bool := false
deriving DecidableEq, Repr

/-- One chat message: a role and an ordered block sequence. -/
structure Message where
  role : String := ""
  content : List ContentBlock := []
deriving DecidableEq, Repr

/-- Token usage attached to a response. -/
structure Usage where
  promptTokens : Nat := 0
  completionTokens : Nat := 0
  totalTokens : Nat := 0
  cacheReadInputTokens : Nat := 0
deriving DecidableEq, Repr

/-- Parsed provider-agnostic chat request. -/
structure ChatRequest where
  model : String := ""
  messages : List Message := []
deriving DecidableEq, Repr

/-- Parsed provider-agnostic chat response. -/
structure ChatResponse where
  model : String := ""
  stopReason : String := ""
  usage : Option Usage := none
  message : Message := {}
deriving DecidableEq, Repr

/-! ## Merkle node model and canonical encoding

Modelled from the spec: sections 3.3, 3.4 and 4.1 define the Bucket and
Node entities of the merkle package, whose Go source is not in the
tree.  The canonical encoding below is JSON with keys sorted
lexicographically at every level, empty optional fields omitted, and
integers rendered as integers.  Brace characters inside string literals
are written with hexadecimal escapes throughout. -/

/-- Bucket is the hashed payload of a node, spec section 3.3. -/
structure Bucket where
  type : String := ""
  role : String := ""
  model : String := ""
  provider : String := ""
  content : List ContentBlock := []
  stopReason : String := ""
  usage : Option Usage := none
deriving DecidableEq, Repr

/-- Node is one immutable content-addressed record, spec section 3.4. -/
structure Node where
  hash : String := ""
  parentHash : String := ""
  bucket : Bucket := {}
  createdAt : Timestamp := ""
deriving DecidableEq, Repr

/-- JSON string escaping for quote, backslash and control characters.
The HTML-safety escaping Go applies to angle brackets and ampersands is
not modelled; no claim input contains those characters. -/
def jsonEscapeChar (c : Char) : List Char :=
  if c = '"' then ['\\', '"']
  else if c = '\\' then ['\\', '\\']
  else if c = '\n' then ['\\', 'n']
  else if c = '\t' then ['\\', 't']
  else if c = '\r' then ['\\', 'r']
  else if c.toNat < 32 then
    ['\\', 'u', '0', '0', hexDigit (c.toNat / 16), hexDigit (c.toNat % 16)]
  else [c]

/-- Quoted JSON rendering of a string. -/
def jsonStr (s : String) : String :=
  "\"" ++ String.mk (s.data.foldr (fun c acc => jsonEscapeChar c ++ acc) []) ++ "\""

/-- Join pre-rendered key-value members into one JSON object. -/
def jsonObj (members : List String) : String :=
  "\x7b" ++ String.intercalate "," members ++ "\x7d"

/-- A key-value member when the value is present, else nothing. -/
def optMember (key : String) (present : Bool) (value : String) : List String :=
  if present then [jsonStr key ++ ":" ++ value] else []

/-- Canonical encoding of a tool-input mapping: keys sorted, values as
JSON strings. -/
def encToolInput (kvs : List (String × String)) : String :=
  jsonObj (((kvs.mergeSort (fun a b => a.1 ≤ b.1)).map
    (fun kv => jsonStr kv.1 ++ ":" ++ jsonStr kv.2)))

/-- Canonical encoding of one content block: keys sorted, empty fields
omitted, spec sections 3.1 and 4.1. -/
def encContentBlock (b : ContentBlock) : String :=
  jsonObj
    (optMember "image_url" (b.imageURL ≠ "") (jsonStr b.imageURL) ++
     optMember "is_error" b.isError "true" ++
     optMember "text" (b.text ≠ "") (jsonStr b.text) ++
     optMember "tool_input" (b.toolInput ≠ []) (encToolInput b.toolInput) ++
     optMember "tool_name" (b.toolName ≠ "") (jsonStr b.toolName) ++
     optMember "tool_output" (b.toolOutput ≠ "") (jsonStr b.toolOutput) ++
     optMember "tool_result_id" (b.toolResultID ≠ "") (jsonStr b.toolResultID) ++
     optMember "tool_use_id" (b.toolUseID ≠ "") (jsonStr b.toolUseID) ++
     optMember "type" (b.type ≠ "") (jsonStr b.type))

/-- Canonical encoding of an ordered content sequence; order preserved. -/
def encContent (blocks : List ContentBlock) : String :=
  "[" ++ String.intercalate "," (blocks.map encContentBlock) ++ "]"

/-- Canonical encoding of usage: keys sorted, zero-valued fields omitted. -/
def encUsage (u : Usage) : String :=
  jsonObj
    (optMember "cache_read_input_tokens" (u.cacheReadInputTokens ≠ 0)
        (toString u.cacheReadInputTokens) ++
     optMember "completion_tokens" (u.completionTokens ≠ 0) (toString u.completionTokens) ++
     optMember "prompt_tokens" (u.promptTokens ≠ 0) (toString u.promptTokens) ++
     optMember "total_tokens" (u.totalTokens ≠ 0) (toString u.totalTokens))

/-- Canonical encoding of a bucket: keys sorted lexicographically, empty
optional fields omitted, spec section 4.1. -/
def encBucket (b : Bucket) : String :=
  jsonObj
    (optMember "content" (b.content ≠ []) (encContent b.content) ++
     optMember "model" (b.model ≠ "") (jsonStr b.model) ++
     optMember "provider" (b.provider ≠ "") (jsonStr b.provider) ++
     optMember "role" (b.role ≠ "") (jsonStr b.role) ++
     optMember "stop_reason" (b.stopReason ≠ "") (jsonStr b.stopReason) ++
     optMember "type" (b.type ≠ "") (jsonStr b.type) ++
     (match b.usage with
      | none => []
      | some u => [jsonStr "usage" ++ ":" ++ encUsage u]))

/-- Canonical hash pre-image of a node: the sorted-key JSON object of the
parent hash and the bucket, with the empty parent of a root omitted. -/
def hashPreimage (parentHash : String) (bucket : Bucket) : String :=
  jsonObj
    (optMember "bucket" true (encBucket bucket) ++
     optMember "parent" (parentHash ≠ "") (jsonStr parentHash))

/-- Hash derivation, spec section 4.1: SHA-256 of the canonical encoding
of the parent hash and bucket, as lowercase hex. -/
def nodeHash (parentHash : String) (bucket : Bucket) : String :=
  sha256Hex (hashPreimage parentHash bucket)

/-- NewNode creates a node from a bucket and the hash of its parent,
computing the content hash once and stamping the creation time, which is
not part of the hash. -/
def NewNode (bucket : Bucket) (parentHash : String) (now : Timestamp) : Node :=
  { hash := nodeHash parentHash bucket, parentHash := parentHash,
    bucket := bucket, createdAt := now }

/-! ## Turn builder

Modelled from the spec: section 4.2 defines the pure turn builder of the
worker package, whose Go source is not in the tree.  One representation
choice is forced by the golden behavior the spec itself fixes (the
turn-replay rule of section 4.2, Scenario A of section 8) and by the
in-tree worker test, which stores exactly five nodes after replaying a
turn whose request repeats the previous assistant response as a message:
the response node must hash identically to that replayed assistant
message.  The builder therefore normalizes the response into the same
message-shaped bucket as a request message (type "message", role
"assistant", model and provider carried on every node); the response
metadata that cannot appear in a replayed request message (stop reason,
usage) is not part of the node identity.  The spec flags the exact
canonical form as its one open question (section 9) and directs
implementers to fix it against golden behavior, which is what this
model does. -/

/-- Bucket of one request message node: type "message" with the role and
content copied and the model and provider of the turn attached. -/
def msgBucket (provider model : String) (m : Message) : Bucket :=
  { type := "message", role := m.role, model := model, provider := provider,
    content := m.content }

/-- Bucket of the response node, normalized to the same message shape so
that a later turn replaying the assistant text re-derives the same hash. -/
def respBucket (provider : String) (resp : ChatResponse) : Bucket :=
  { type := "message", role := "assistant", model := resp.model, provider := provider,
    content := resp.message.content }

/-- Ordered bucket sequence of one turn: one bucket per request message,
then the response bucket. -/
def turnBuckets (provider : String) (req : ChatRequest) (resp : ChatResponse) : List Bucket :=
  req.messages.map (msgBucket provider req.model) ++ [respBucket provider resp]

/-- Chain buckets into parent-linked nodes: the first parents on the
given hash, each subsequent node on its predecessor. -/
def chainBuckets (parent : String) (now : Timestamp) : List Bucket → List Node
  | [] => []
  | b :: rest =>
    let n := NewNode b parent now
    n :: chainBuckets n.hash now rest

/-- Turn builder, spec section 4.2: the ordered node sequence of one
observed turn, the first node a root with empty parent. -/
def buildNodes (provider : String) (req : ChatRequest) (resp : ChatResponse)
    (now : Timestamp) : List Node :=
  chainBuckets "" now (turnBuckets provider req resp)

/-! ## In-memory storage driver

Modelled from the spec: sections 4.3 and 6.2 define the reference
in-memory driver, whose Go source is not in the tree.  Nodes are held in
insertion order; put is idempotent by hash; ancestry walks parent
pointers from a node to the first empty parent hash, failing when a hash
is unknown, with fuel bounding the walk at the store size. -/

/-- State of the in-memory driver: the stored nodes in insertion order. -/
structure Driver where
  nodes : List Node := []
deriving DecidableEq, Repr

/-- Whether a node with the given hash is stored. -/
def Driver.containsHash (s : Driver) (h : String) : Bool :=
  s.nodes.any (fun n => n.hash == h)

/-- Put stores a node unless its hash is already present, reporting
whether an insertion happened, spec section 4.3. -/
def Driver.put (s : Driver) (n : Node) : Driver × Bool :=
  if s.containsHash n.hash then (s, false)
  else ({ nodes := s.nodes ++ [n] }, true)

/-- Get looks a node up by hash; none models the NotFound failure. -/
def Driver.get (s : Driver) (h : String) : Option Node :=
  s.nodes.find? (fun n => n.hash == h)

/-- List returns the stored nodes in insertion order. -/
def Driver.list (s : Driver) : List Node := s.nodes

/-- Leaves returns the nodes no stored node references as parent. -/
def Driver.leaves (s : Driver) : List Node :=
  s.nodes.filter (fun n => ¬ s.nodes.any (fun m => m.parentHash == n.hash))

/-- Fuel-bounded ancestry walk from a hash toward the root. -/
def Driver.ancestryAux (s : Driver) : Nat → String → Option (List Node)
  | 0, _ => none
  | fuel + 1, h =>
    match s.get h with
    | none => none
    | some n =>
      if n.parentHash = "" then some [n]
      else (s.ancestryAux fuel n.parentHash).map (fun anc => n :: anc)

/-- Ancestry returns the chain node, parent, ..., root, failing with
none when the hash or any parent on the walk is unknown, spec
section 4.3. -/
def Driver.ancestry (s : Driver) (h : String) : Option (List Node) :=
  s.ancestryAux (s.nodes.length + 1) h

/-! ## Event envelope and publisher errors

Embedded from pkg/publisher/event.go and the error values of
pkg/publisher/kafka/kafka.go. -/

/-- Error surface of the publisher package and the Kafka construction
and publish paths. -/
inductive PubError where
  | errNilNode
  | errEmptyRootHash
  | errNilEvent
  | errMissingBrokers
  | errMissingTopic
  | errWriterRequired
  | errWriteWrapped (inner : PubError)
  | errPublishFailed
deriving DecidableEq, Repr

/-- Schema identifier for node publish events. -/
def SchemaNodeV1 : String := "tapes.node.v1"

/-- Event is the publish payload for a single merkle node, embedded from
pkg/publisher/event.go. -/
structure Event where
  schema : String := ""
  rootHash : String := ""
  occurredAt : Timestamp := ""
  node : Node := {}
deriving DecidableEq, Repr

/-- NewEvent, embedded from pkg/publisher/event.go: rejects an empty
root hash, then a nil node, then builds the schema-tagged event holding
a by-value copy of the node; the wall-clock reading is passed
explicitly. -/
def NewEvent (rootHash : String) (node : Option Node) (now : Timestamp) :
    Except PubError Event :=
  if rootHash = "" then .error .errEmptyRootHash
  else
    match node with
    | none => .error .errNilNode
    | some n =>
      .ok { schema := SchemaNodeV1, rootHash := rootHash, occurredAt := now, node := n }

/-! ## Kafka publisher

Embedded from pkg/publisher/kafka/kafka.go.  The segmentio writer is
external to the repository; it is embedded as a recording mock matching
the writer interface, with an optional injected write error.  Contexts
are embedded by the one observable the code derives from them here: the
timeout installed by WithTimeout before each write, recorded alongside
the write. -/

/-- Wire message of the writer interface: key bytes, serialized value,
and the message timestamp. -/
structure KMessage where
  key : List Nat := []
  value : String := ""
  time : Timestamp := ""
deriving DecidableEq, Repr

/-- Recording writer behind the publisher, with an injectable error. -/
structure MockWriter where
  writes : List KMessage := []
  ctxTimeouts : List Int := []
  writeErr : Option PubError := none
deriving DecidableEq, Repr

/-- WriteMessages records one message and the publish-context timeout it
was called under, or fails with the injected error recording nothing. -/
def MockWriter.writeMessages (w : MockWriter) (ctxTimeout : Int) (m : KMessage) :
    MockWriter × Option PubError :=
  match w.writeErr with
  | some e => (w, some e)
  | none =>
    ({ w with writes := w.writes ++ [m], ctxTimeouts := w.ctxTimeouts ++ [ctxTimeout] }, none)

/-- Config of the Kafka publisher, embedded from kafka.go; the publish
timeout is a signed nanosecond count as in Go. -/
structure KafkaConfig where
  brokers : List String := []
  topic : String := ""
  clientID : String := ""
  publishTimeout : Int := 0
deriving DecidableEq, Repr

/-- Default publish timeout of five seconds, in nanoseconds. -/
def defaultPublishTimeout : Int := 5000000000

/-- Kafka publisher state: the writer and the effective publish timeout. -/
structure KafkaPublisher where
  writer : MockWriter := {}
  publishTimeout : Int := 0
deriving DecidableEq, Repr

/-- Constructor core newPublisherWithWriter, embedded from kafka.go:
requires a topic and a writer and defaults a non-positive publish
timeout to five seconds. -/
def newPublisherWithWriter (c : KafkaConfig) (w : Option MockWriter) :
    Except PubError KafkaPublisher :=
  if c.topic = "" then .error .errMissingTopic
  else
    match w with
    | none => .error .errWriterRequired
    | some w =>
      let timeout := if c.publishTimeout ≤ 0 then defaultPublishTimeout else c.publishTimeout
      .ok { writer := w, publishTimeout := timeout }

/-- NewPublisher, embedded from kafka.go: requires brokers and topic,
then builds the writer and delegates; the concrete network writer is
embedded as a fresh recording writer. -/
def NewPublisher (c : KafkaConfig) : Except PubError KafkaPublisher :=
  if c.brokers = [] then .error .errMissingBrokers
  else if c.topic = "" then .error .errMissingTopic
  else newPublisherWithWriter c (some {})

/-- JSON encoding of an event as Go's json.Marshal renders the Event
struct: the tagged fields in declaration order (schema, root_hash,
occurred_at, node), the node with its hash, parent hash, bucket and
creation time, the bucket in canonical sorted-key form. -/
def encodeEventJson (e : Event) : String :=
  "\x7b\"schema\":" ++ jsonStr e.schema ++
  ",\"root_hash\":" ++ jsonStr e.rootHash ++
  ",\"occurred_at\":" ++ jsonStr e.occurredAt ++
  ",\"node\":" ++
    ("\x7b\"hash\":" ++ jsonStr e.node.hash ++
     ",\"parent_hash\":" ++ jsonStr e.node.parentHash ++
     ",\"bucket\":" ++ encBucket e.node.bucket ++
     ",\"created_at\":" ++ jsonStr e.node.createdAt ++ "\x7d") ++ "\x7d"

/-- Publish, embedded from kafka.go: rejects a nil event, then an empty
root hash; otherwise marshals the event and writes one message keyed by
the raw UTF-8 bytes of the root hash, timestamped with the occurrence
time, under a context carrying the publish timeout; a writer error is
returned wrapped. -/
def KafkaPublisher.publish (p : KafkaPublisher) (event : Option Event) :
    KafkaPublisher × Option PubError :=
  match event with
  | none => (p, some .errNilEvent)
  | some e =>
    if e.rootHash = "" then (p, some .errEmptyRootHash)
    else
      let msg : KMessage :=
        { key := utf8Bytes e.rootHash, value := encodeEventJson e, time := e.occurredAt }
      match p.writer.writeMessages p.publishTimeout msg with
      | (w, some err) => ({ p with writer := w }, some (.errWriteWrapped err))
      | (w, none) => ({ p with writer := w }, none)

/-! ## Worker pool

Modelled from the spec: section 4.5 defines the per-job worker
algorithm of the worker package, whose Go source is not in the tree.
The in-tree worker tests drive the pool with one worker, so the model is
the sequential execution of that algorithm: per node, put, gate on
inserted, derive the root by ancestry, publish; an ancestry failure
disables publication for the remainder of the turn while puts continue;
a publish error is tolerated.  The failure injections of the tests are
carried as flags: a driver whose ancestry always errors, and a publisher
whose publish always errors but still records the call, as the mock
publisher of the tests does. -/

/-- Failure injections of the worker tests. -/
structure Flags where
  ancestryFails : Bool := false
  publishErr : Bool := false
deriving DecidableEq, Repr

/-- Observable pool state: the driver and the publish calls received by
the publisher, in order. -/
structure PoolState where
  driver : Driver := {}
  publishCalls : List Event := []
deriving DecidableEq, Repr

/-- Mock publisher of the worker tests: records every publish call,
then returns the injected error when one is configured. -/
def mockPublish (flags : Flags) (calls : List Event) (e : Event) :
    List Event × Option PubError :=
  (calls ++ [e], if flags.publishErr then some .errPublishFailed else none)

/-- Per-node worker step, spec section 4.5: put the node; skip
publication when it deduplicated; otherwise derive the conversation root
via ancestry, an error disabling publication for the rest of the turn;
then publish the event, a publish error being logged and tolerated with
the same continuation as success.  The boolean carried alongside the
state is whether publication is still enabled for this turn. -/
def processNode (flags : Flags) (now : Timestamp) :
    PoolState × Bool → Node → PoolState × Bool
  | (st, pubEnabled), n =>
    match st.driver.put n with
    | (d, false) => ({ st with driver := d }, pubEnabled)
    | (d, true) =>
      let st := { st with driver := d }
      if pubEnabled then
        match (if flags.ancestryFails then none else d.ancestry n.hash) with
        | none => (st, false)
        | some anc =>
          let rootHash := ((anc.getLast?).map (fun r => r.hash)).getD ""
          match NewEvent rootHash (some n) now with
          | .ok e => ({ st with publishCalls := (mockPublish flags st.publishCalls e).1 }, true)
          | .error _ => (st, true)
      else (st, false)

/-- One job carried through the queue, spec section 6.3. -/
structure Job where
  provider : String := ""
  req : ChatRequest := {}
  resp : ChatResponse := {}
deriving DecidableEq, Repr

/-- Process one job: build the turn's nodes and run the per-node step
over them with publication initially enabled. -/
def processJob (flags : Flags) (now : Timestamp) (st : PoolState) (job : Job) : PoolState :=
  ((buildNodes job.provider job.req job.resp now).foldl (processNode flags now) (st, true)).1

/-- Process a sequence of jobs from the fresh pool state. -/
def processPool (flags : Flags) (now : Timestamp) (jobs : List Job) : PoolState :=
  jobs.foldl (processJob flags now) {}

/-! ## Scenario fixtures of the worker tests

These mirror buildTurnOneJob and buildTurnTwoJob of
proxy/worker/pool_publisher_test.go. -/

/-- Turn one of the replay scenario: system and user messages plus the
assistant response. -/
def turnOneJob : Job :=
  { provider := "test-provider"
    req := { model := "test-model"
             messages :=
               [{ role := "system"
                  content := [{ type := "text", text := "You are a helpful assistant." }] },
                { role := "user"
                  content := [{ type := "text", text := "What is 2+2?" }] }] }
    resp := { model := "test-model"
              stopReason := "stop"
              usage := some { promptTokens := 10, completionTokens := 5, totalTokens := 15 }
              message := { role := "assistant"
                           content := [{ type := "text", text := "2+2 equals 4." }] } } }

/-- Turn two of the replay scenario: the turn-one prefix replayed, with
the previous assistant response as a request message, plus one new user
message and a new assistant response. -/
def turnTwoJob : Job :=
  { provider := "test-provider"
    req := { model := "test-model"
             messages :=
               [{ role := "system"
                  content := [{ type := "text", text := "You are a helpful assistant." }] },
                { role := "user"
                  content := [{ type := "text", text := "What is 2+2?" }] },
                { role := "assistant"
                  content := [{ type := "text", text := "2+2 equals 4." }] },
                { role := "user"
                  content := [{ type := "text", text := "And what is 3+3?" }] }] }
    resp := { model := "test-model"
              stopReason := "stop"
              usage := some { promptTokens := 20, completionTokens := 5, totalTokens := 25 }
              message := { role := "assistant"
                           content := [{ type := "text", text := "3+3 equals 6." }] } } }

/-- Pool state after enqueueing both turns into a fresh pool with no
failure injection and draining it. -/
def replayScenario : PoolState := processPool {} "t0" [turnOneJob, turnTwoJob]

/-- Hash of the conversation root of the scenario, the system message. -/
def replayRootHash : String :=
  (((buildNodes turnOneJob.provider turnOneJob.req turnOneJob.resp "t0").head?).map
    (fun n => n.hash)).getD ""

/-- Hash of the turn-two assistant response, the expected single leaf. -/
def turnTwoRespHash : String :=
  (((buildNodes turnTwoJob.provider turnTwoJob.req turnTwoJob.resp "t0").getLast?).map
    (fun n => n.hash)).getD ""

/-! ## Helper lemmas -/

/-- Mapping the hash over a chained bucket list does not depend on the
creation timestamp: the hash covers only parent and bucket. -/
theorem chainBuckets_hash_time_inv (bs : List Bucket) :
    ∀ (parent : String) (t₁ t₂ : Timestamp),
      (chainBuckets parent t₁ bs).map (fun n => n.hash) =
        (chainBuckets parent t₂ bs).map (fun n => n.hash) := by
  induction bs with
  | nil => intro _ _ _; rfl
  | cons b rest ih =>
    intro parent t₁ t₂
    simp only [chainBuckets, List.map_cons]
    refine congrArg₂ _ rfl ?_
    show (chainBuckets (NewNode b parent t₁).hash t₁ rest).map (fun n => n.hash) =
      (chainBuckets (NewNode b parent t₁).hash t₂ rest).map (fun n => n.hash)
    exact ih (NewNode b parent t₁).hash t₁ t₂

/-! ## Claims about the event constructor and the Kafka publisher -/

/-- C9: NewEvent returns the empty-root-hash error on an empty root
hash and the nil-node error on a nil node, and otherwise an event
tagged with the node schema, carrying the given root hash, the clock
reading, and a by-value copy of the node; because the event holds the
node by value, later changes to the caller's node cannot reach it. -/
theorem NewEvent_contract :
    ∀ (rh : String) (n : Node) (now : Timestamp),
      (NewEvent "" (some n) now = .error PubError.errEmptyRootHash) ∧
      (rh ≠ "" → NewEvent rh none now = .error PubError.errNilNode) ∧
      (rh ≠ "" → NewEvent rh (some n) now =
        .ok { schema := SchemaNodeV1, rootHash := rh, occurredAt := now, node := n }) := by
  intro rh n now
  refine ⟨rfl, ?_, ?_⟩ <;> intro h <;> simp only [NewEvent, if_neg h]

/-- Witness for NewEvent_contract at a concrete root hash and node. -/
theorem NewEvent_contract_witness :
    NewEvent "r" none "t" = .error PubError.errNilNode ∧
    NewEvent "r" (some {}) "t" =
      .ok { schema := SchemaNodeV1, rootHash := "r", occurredAt := "t", node := {} } :=
  ⟨(NewEvent_contract "r" {} "t").2.1 (by decide),
   (NewEvent_contract "r" {} "t").2.2 (by decide)⟩

/-- C10: when the root hash is empty and the node is nil at once,
NewEvent reports the empty-root-hash error, which is distinct from the
nil-node error: the empty-root-hash check runs first. -/
theorem NewEvent_error_precedence :
    (∀ now : Timestamp, NewEvent "" none now = .error PubError.errEmptyRootHash) ∧
    (Except.error PubError.errEmptyRootHash : Except PubError Event) ≠
      (Except.error PubError.errNilNode : Except PubError Event) :=
  ⟨fun _ => rfl, by simp⟩

/-- C7: publishing a nil event fails with the nil-event error and
publishing an event with an empty root hash fails with the
empty-root-hash error; in both cases the publisher, and with it the
underlying writer and its recorded writes, is returned unchanged. -/
theorem kafka_publish_validation :
    ∀ (p : KafkaPublisher),
      (p.publish none = (p, some PubError.errNilEvent)) ∧
      (∀ e : Event, e.rootHash = "" →
        p.publish (some e) = (p, some PubError.errEmptyRootHash)) := by
  intro p
  refine ⟨rfl, ?_⟩
  intro e h
  simp only [KafkaPublisher.publish, if_pos h]

/-- Witness for kafka_publish_validation on the default event, whose
root hash is empty. -/
theorem kafka_publish_validation_witness :
    KafkaPublisher.publish {} (some {}) = ({}, some PubError.errEmptyRootHash) :=
  (kafka_publish_validation {}).2 {} rfl

/-- C6: for a non-nil event with a non-empty root hash and a healthy
writer, publish appends exactly one message, keyed by the raw UTF-8
bytes of the root hash, valued with the JSON encoding of the event and
timestamped with the occurrence time, returning no error; and when the
event carries the node schema its JSON encoding starts with the schema
tag. -/
theorem kafka_wire_format :
    ∀ (p : KafkaPublisher) (e : Event), e.rootHash ≠ "" → p.writer.writeErr = none →
      ((p.publish (some e)).1.writer.writes =
        p.writer.writes ++
          [{ key := utf8Bytes e.rootHash, value := encodeEventJson e,
             time := e.occurredAt }]) ∧
      (p.publish (some e)).2 = none ∧
      (e.schema = SchemaNodeV1 →
        ∃ r, encodeEventJson e = "\x7b\"schema\":\"tapes.node.v1\"" ++ r) := by
  intro p e hroot herr
  refine ⟨?_, ?_, ?_⟩
  · simp only [KafkaPublisher.publish, if_neg hroot, MockWriter.writeMessages, herr]
  · simp only [KafkaPublisher.publish, if_neg hroot, MockWriter.writeMessages, herr]
  · intro hs
    refine ⟨",\"root_hash\":" ++ jsonStr e.rootHash ++ ",\"occurred_at\":" ++
      jsonStr e.occurredAt ++ ",\"node\":" ++
      ("\x7b\"hash\":" ++ jsonStr e.node.hash ++ ",\"parent_hash\":" ++
       jsonStr e.node.parentHash ++ ",\"bucket\":" ++ encBucket e.node.bucket ++
       ",\"created_at\":" ++ jsonStr e.node.createdAt ++ "\x7d") ++ "\x7d", ?_⟩
    rw [encodeEventJson, hs,
      show ("\x7b\"schema\":" ++ jsonStr SchemaNodeV1 : String) =
        "\x7b\"schema\":\"tapes.node.v1\"" by decide]
    simp only [String.append_assoc]

/-- Witness for kafka_wire_format on a concrete publisher and event. -/
theorem kafka_wire_format_witness :
    ((KafkaPublisher.publish { publishTimeout := 7 }
        (some { schema := SchemaNodeV1, rootHash := "r", occurredAt := "t" })).1.writer.writes =
      [{ key := utf8Bytes "r",
         value := encodeEventJson
           { schema := SchemaNodeV1, rootHash := "r", occurredAt := "t" },
         time := "t" }]) ∧
    (KafkaPublisher.publish { publishTimeout := 7 }
        (some { schema := SchemaNodeV1, rootHash := "r", occurredAt := "t" })).2 = none :=
  have h := kafka_wire_format { publishTimeout := 7 }
    { schema := SchemaNodeV1, rootHash := "r", occurredAt := "t" } (by decide) rfl
  ⟨h.1, h.2.1⟩

/-- Effective timeout chosen by the constructor core. -/
theorem newPublisherWithWriter_timeout (c : KafkaConfig) (w : MockWriter)
    (p : KafkaPublisher) (hle : c.publishTimeout ≤ 0)
    (hok : newPublisherWithWriter c (some w) = .ok p) :
    p.publishTimeout = defaultPublishTimeout := by
  by_cases ht : c.topic = ""
  · simp only [newPublisherWithWriter, if_pos ht] at hok
    exact absurd hok (by simp)
  · simp only [newPublisherWithWriter, if_neg ht, Except.ok.injEq] at hok
    rw [← hok]
    simp only [if_pos hle]

/-- C8: a publisher constructed from a config with a zero or negative
publish timeout ends up with the five-second default, and every
successful publish call runs the write under a context deadline equal
to the publisher's effective publish timeout. -/
theorem kafka_default_timeout :
    (∀ (c : KafkaConfig) (w : MockWriter) (p : KafkaPublisher),
       c.publishTimeout ≤ 0 → newPublisherWithWriter c (some w) = .ok p →
       p.publishTimeout = defaultPublishTimeout) ∧
    (∀ (c : KafkaConfig) (p : KafkaPublisher),
       c.publishTimeout ≤ 0 → NewPublisher c = .ok p →
       p.publishTimeout = defaultPublishTimeout) ∧
    (∀ (p : KafkaPublisher) (e : Event), e.rootHash ≠ "" → p.writer.writeErr = none →
       ((p.publish (some e)).1).writer.ctxTimeouts =
         p.writer.ctxTimeouts ++ [p.publishTimeout]) := by
  refine ⟨fun c w p hle hok => newPublisherWithWriter_timeout c w p hle hok, ?_, ?_⟩
  · intro c p hle hok
    by_cases hb : c.brokers = []
    · simp only [NewPublisher, if_pos hb] at hok
      exact absurd hok (by simp)
    · by_cases ht : c.topic = ""
      · simp only [NewPublisher, if_neg hb, if_pos ht] at hok
        exact absurd hok (by simp)
      · simp only [NewPublisher, if_neg hb, if_neg ht] at hok
        exact newPublisherWithWriter_timeout c {} p hle hok
  · intro p e hroot herr
    simp only [KafkaPublisher.publish, if_neg hroot, MockWriter.writeMessages, herr]

/-- Witness for kafka_default_timeout at a concrete config, writer and
publisher. -/
theorem kafka_default_timeout_witness :
    ({ writer := {}, publishTimeout := defaultPublishTimeout } :
        KafkaPublisher).publishTimeout = defaultPublishTimeout ∧
    ((KafkaPublisher.publish { publishTimeout := 3 }
        (some { rootHash := "r" })).1).writer.ctxTimeouts = [3] :=
  ⟨kafka_default_timeout.1 { topic := "t" } {}
      { writer := {}, publishTimeout := defaultPublishTimeout } (by decide) (by rfl),
   kafka_default_timeout.2.2 { publishTimeout := 3 } { rootHash := "r" } (by decide) rfl⟩

/-- C1: the node hash is a deterministic function of the parent hash
and the bucket alone, independent of the creation timestamp, and
building the node sequence of one turn twice from the same provider,
request and response input yields element-wise identical hashes. -/
theorem hash_deterministic :
    (∀ (p₁ p₂ : String) (b₁ b₂ : Bucket) (t₁ t₂ : Timestamp),
      p₁ = p₂ → b₁ = b₂ → (NewNode b₁ p₁ t₁).hash = (NewNode b₂ p₂ t₂).hash) ∧
    (∀ (provider : String) (req : ChatRequest) (resp : ChatResponse)
       (t₁ t₂ : Timestamp),
      (buildNodes provider req resp t₁).map (fun n => n.hash) =
        (buildNodes provider req resp t₂).map (fun n => n.hash)) := by
  constructor
  · intro p₁ p₂ b₁ b₂ t₁ t₂ hp hb
    subst hp; subst hb; rfl
  · intro provider req resp t₁ t₂
    exact chainBuckets_hash_time_inv (turnBuckets provider req resp) "" t₁ t₂

/-- Witness for hash_deterministic at a concrete bucket built at two
different wall-clock times. -/
theorem hash_deterministic_witness :
    (NewNode { type := "message", role := "user" } "" "t1").hash =
      (NewNode { type := "message", role := "user" } "" "t2").hash :=
  hash_deterministic.1 "" "" { type := "message", role := "user" }
    { type := "message", role := "user" } "t1" "t2" rfl rfl

/-! ## Lemmas on the driver and the per-node step -/

/-- Put on an already-present hash returns the driver unchanged with no
insertion. -/
theorem put_of_contains {s : Driver} {n : Node}
    (h : s.containsHash n.hash = true) : s.put n = (s, false) := by
  simp [Driver.put, h]

/-- Put on a fresh hash appends the node and reports insertion. -/
theorem put_of_not_contains {s : Driver} {n : Node}
    (h : s.containsHash n.hash = false) :
    s.put n = (Driver.mk (s.nodes ++ [n]), true) := by
  simp [Driver.put, h]

/-- Appending a node preserves every hash already present. -/
theorem containsHash_mono {s : Driver} {n : Node} {h : String}
    (hc : s.containsHash h = true) :
    (Driver.mk (s.nodes ++ [n])).containsHash h = true := by
  simp only [Driver.containsHash, List.any_append, Bool.or_eq_true] at *
  exact Or.inl hc

/-- Appending a node makes its own hash present. -/
theorem containsHash_self (s : Driver) (n : Node) :
    (Driver.mk (s.nodes ++ [n])).containsHash n.hash = true := by
  simp [Driver.containsHash, List.any_append]

/-- Invariant of the publish history: the published node hashes are
pairwise distinct, and every published node hash is stored. -/
def PubInv (st : PoolState) : Prop :=
  (st.publishCalls.map (fun e => e.node.hash)).Nodup ∧
  ∀ e ∈ st.publishCalls, st.driver.containsHash e.node.hash = true

/-- The per-node worker step preserves the publish-history invariant:
a deduplicated node publishes nothing, and an inserted node was not
stored before, so its publish call introduces a fresh hash. -/
theorem processNode_pubInv (flags : Flags) (now : Timestamp)
    (st : PoolState) (pe : Bool) (n : Node) (hinv : PubInv st) :
    PubInv (processNode flags now (st, pe) n).1 := by
  by_cases hc : st.driver.containsHash n.hash = true
  · simpa [processNode, put_of_contains hc] using hinv
  · have hc' : st.driver.containsHash n.hash = false := by
      revert hc; cases st.driver.containsHash n.hash <;> simp
    have hmono : ∀ e ∈ st.publishCalls,
        (Driver.mk (st.driver.nodes ++ [n])).containsHash e.node.hash = true :=
      fun e he => containsHash_mono (hinv.2 e he)
    have hfresh : n.hash ∉ st.publishCalls.map (fun e => e.node.hash) := by
      intro hmem
      rcases List.mem_map.mp hmem with ⟨e, he, hhash⟩
      have ht := hinv.2 e he
      rw [hhash] at ht
      rw [ht] at hc'
      simp at hc'
    simp only [processNode, put_of_not_contains hc']
    cases pe with
    | false => exact ⟨hinv.1, hmono⟩
    | true =>
      cases hanc : (if flags.ancestryFails then none
          else (Driver.mk (st.driver.nodes ++ [n])).ancestry n.hash) with
      | none => exact ⟨hinv.1, hmono⟩
      | some anc =>
        by_cases hroot :
            (((anc.getLast?).map (fun r => r.hash)).getD "") = ""
        · simp only [NewEvent, if_pos hroot]
          exact ⟨hinv.1, hmono⟩
        · simp only [NewEvent, if_neg hroot, mockPublish, if_true]
          refine ⟨?_, ?_⟩
          · rw [List.map_append]
            refine List.nodup_append.mpr ⟨hinv.1, List.nodup_singleton _, ?_⟩
            simp only [List.map_cons, List.map_nil, List.disjoint_singleton]
            simpa using hfresh
          · intro e he
            rcases List.mem_append.mp he with h1 | h1
            · exact hmono e h1
            · rw [List.mem_singleton.mp h1]
              exact containsHash_self st.driver n

/-- Folding the per-node step over any node list preserves the
publish-history invariant. -/
theorem foldl_processNode_pubInv (flags : Flags) (now : Timestamp) :
    ∀ (ns : List Node) (st : PoolState) (pe : Bool), PubInv st →
      PubInv ((ns.foldl (processNode flags now) (st, pe)).1) := by
  intro ns
  induction ns with
  | nil => intro st pe h; exact h
  | cons n rest ih =>
    intro st pe h
    rw [List.foldl_cons]
    rcases hstep : processNode flags now (st, pe) n with ⟨st', pe'⟩
    have h' : PubInv st' := by
      have := processNode_pubInv flags now st pe n h
      rw [hstep] at this
      exact this
    exact ih st' pe' h'

/-- Processing any job list from the fresh pool preserves the
publish-history invariant. -/
theorem processPool_pubInv (flags : Flags) (now : Timestamp) (jobs : List Job) :
    PubInv (processPool flags now jobs) := by
  suffices h : ∀ (js : List Job) (st : PoolState), PubInv st →
      PubInv (js.foldl (processJob flags now) st) by
    exact h jobs {} ⟨List.nodup_nil, by intro e he; cases he⟩
  intro js
  induction js with
  | nil => intro st h; exact h
  | cons j rest ih =>
    intro st h
    rw [List.foldl_cons]
    exact ih _ (foldl_processNode_pubInv flags now _ st true h)

/-- C2: publication is at most once per hash: over the whole history of
a pool instance, the published node hashes are pairwise distinct; and a
node whose put reports no insertion is passed over without a publish
call. -/
theorem publish_at_most_once_per_hash :
    (∀ (flags : Flags) (now : Timestamp) (jobs : List Job),
      (((processPool flags now jobs).publishCalls).map (fun e => e.node.hash)).Nodup) ∧
    (∀ (flags : Flags) (now : Timestamp) (st : PoolState) (pe : Bool) (n : Node),
      st.driver.containsHash n.hash = true →
      ((processNode flags now (st, pe) n).1).publishCalls = st.publishCalls) := by
  constructor
  · intro flags now jobs
    exact (processPool_pubInv flags now jobs).1
  · intro flags now st pe n hc
    simp [processNode, put_of_contains hc]

/-- Witness for publish_at_most_once_per_hash: a node whose hash is
already stored is processed without a publish call. -/
theorem publish_at_most_once_per_hash_witness :
    ((processNode {} "t" (⟨⟨[{ hash := "h" }]⟩, []⟩, true) { hash := "h" }).1).publishCalls =
      ([] : List Event) :=
  publish_at_most_once_per_hash.2 {} "t" ⟨⟨[{ hash := "h" }]⟩, []⟩ true { hash := "h" }
    (by decide)

/-! ## Chain structure of built turns and the ancestry walk -/

/-- Parent-linked chain in build order: the first node parents on the
given hash, each later node on its predecessor. -/
def Chained : String → List Node → Prop
  | _, [] => True
  | parent, n :: rest => n.parentHash = parent ∧ Chained n.hash rest

/-- Chain in ancestry order, node first and root last: each node
parents on the next, and the last parents on the given base hash. -/
def AncChainRev : List Node → String → Prop
  | [], _ => True
  | [n], base => n.parentHash = base
  | n :: p :: rest, base => n.parentHash = p.hash ∧ AncChainRev (p :: rest) base

/-- The chain produced by chaining buckets is parent-linked. -/
theorem chained_chainBuckets (bs : List Bucket) :
    ∀ (parent : String) (now : Timestamp), Chained parent (chainBuckets parent now bs) := by
  induction bs with
  | nil => intro _ _; trivial
  | cons b rest ih =>
    intro parent now
    exact ⟨rfl, ih (NewNode b parent now).hash now⟩

/-- The node sequence built for a turn is parent-linked from the empty
root parent. -/
theorem chained_buildNodes (provider : String) (req : ChatRequest) (resp : ChatResponse)
    (now : Timestamp) : Chained "" (buildNodes provider req resp now) :=
  chained_chainBuckets (turnBuckets provider req resp) "" now

/-- A prefix of a parent-linked chain is parent-linked. -/
theorem chained_append_left :
    ∀ (xs ys : List Node) (p : String), Chained p (xs ++ ys) → Chained p xs := by
  intro xs
  induction xs with
  | nil => intro _ _ _; trivial
  | cons n rest ih => intro ys p h; exact ⟨h.1, ih ys n.hash h.2⟩

/-- Appending the base node to an ancestry-order chain extends it. -/
theorem ancChainRev_append (m : Node) :
    ∀ (xs : List Node) (base : String),
      AncChainRev xs m.hash → m.parentHash = base → AncChainRev (xs ++ [m]) base := by
  intro xs
  induction xs with
  | nil => intro base _ hm; exact hm
  | cons n rest ih =>
    cases rest with
    | nil => intro base h hm; exact ⟨h, hm⟩
    | cons p rest2 =>
      intro base h hm
      exact ⟨h.1, ih base h.2 hm⟩

/-- Reversing a parent-linked chain yields an ancestry-order chain. -/
theorem chained_reverse :
    ∀ (pre : List Node) (parent : String),
      Chained parent pre → AncChainRev pre.reverse parent := by
  intro pre
  induction pre with
  | nil => intro _ _; trivial
  | cons m rest ih =>
    intro parent h
    rw [List.reverse_cons]
    exact ancChainRev_append m rest.reverse parent (ih m.hash h.2) h.1

/-- With pairwise distinct hashes, looking a stored node up by its hash
finds that node. -/
theorem get_of_mem :
    ∀ (ns : List Node), ((ns.map (fun x => x.hash)).Nodup) →
      ∀ n ∈ ns, (Driver.mk ns).get n.hash = some n := by
  intro ns
  induction ns with
  | nil => intro _ n hn; cases hn
  | cons m rest ih =>
    intro hnd n hn
    rcases List.mem_cons.mp hn with rfl | hn
    · show List.find? (fun x => x.hash == n.hash) (n :: rest) = some n
      rw [List.find?_cons_of_pos _ (by simp)]
    · have hmem : n.hash ∈ rest.map (fun x => x.hash) :=
        List.mem_map.mpr ⟨n, hn, rfl⟩
      have hne : ¬ ((fun x => x.hash == n.hash) m = true) := by
        simp only [beq_iff_eq]
        intro he
        rw [List.map_cons, List.nodup_cons] at hnd
        exact hnd.1 (he ▸ hmem)
      show List.find? (fun x => x.hash == n.hash) (m :: rest) = some n
      exact (List.find?_cons_of_neg rest hne).trans
        (ih (by rw [List.map_cons, List.nodup_cons] at hnd; exact hnd.2) n hn)

/-- With pairwise distinct hashes, the driver resolves every stored
node by its hash. -/
theorem Driver.get_mem (s : Driver) (hnd : ((s.nodes).map (fun x => x.hash)).Nodup) :
    ∀ n ∈ s.nodes, s.get n.hash = some n := by
  rcases s with ⟨ns⟩
  exact get_of_mem ns hnd

/-- A hash not among the stored hashes is not contained. -/
theorem containsHash_eq_false {s : Driver} {h : String}
    (hmem : h ∉ (s.nodes).map (fun x => x.hash)) :
    s.containsHash h = false := by
  rw [Driver.containsHash]
  refine List.any_eq_false.mpr ?_
  intro n hn he
  refine hmem (List.mem_map.mpr ⟨n, hn, ?_⟩)
  simpa using he

/-- Unfolding of one step of the fuel-bounded walk at a stored node. -/
theorem ancestryAux_step (s : Driver) (f : Nat) (h : String) (n : Node)
    (hget : s.get h = some n) :
    s.ancestryAux (f + 1) h =
      if n.parentHash = "" then some [n]
      else (s.ancestryAux f n.parentHash).map (fun anc => n :: anc) := by
  simp only [Driver.ancestryAux]
  rw [hget]

/-- The fuel-bounded walk follows an ancestry-order chain to its root
when every chain node is stored and has a nonempty hash. -/
theorem ancestryAux_walk (s : Driver) :
    ∀ (xs : List Node) (fuel : Nat) (n : Node),
      AncChainRev (n :: xs) "" →
      (∀ m ∈ n :: xs, s.get m.hash = some m) →
      (∀ m ∈ n :: xs, m.hash ≠ "") →
      xs.length < fuel →
      s.ancestryAux fuel n.hash = some (n :: xs) := by
  intro xs
  induction xs with
  | nil =>
    intro fuel n hchain hget hne hfuel
    cases fuel with
    | zero => omega
    | succ f =>
      rw [ancestryAux_step s f n.hash n (hget n (by simp))]
      have h0 : n.parentHash = "" := hchain
      rw [if_pos h0]
  | cons p rest ih =>
    intro fuel n hchain hget hne hfuel
    cases fuel with
    | zero =>
      exact absurd hfuel (by omega)
    | succ f =>
      rw [ancestryAux_step s f n.hash n (hget n (by simp))]
      have hp : ¬ n.parentHash = "" := by
        rw [hchain.1]; exact hne p (by simp)
      rw [if_neg hp, hchain.1]
      rw [ih f p hchain.2 (fun m hm => hget m (List.mem_cons_of_mem n hm))
          (fun m hm => hne m (List.mem_cons_of_mem n hm))
          (by simp only [List.length_cons] at hfuel; omega)]
      rfl

/-- Ancestry of the most recently stored node of a parent-linked store
returns the whole chain in ancestry order. -/
theorem ancestry_of_chain (s : Driver) (pre : List Node) (n : Node)
    (hs : s.nodes = pre ++ [n])
    (hch : Chained "" (pre ++ [n]))
    (hnd : ((pre ++ [n]).map (fun x => x.hash)).Nodup)
    (hne : ∀ m ∈ pre ++ [n], m.hash ≠ "") :
    s.ancestry n.hash = some (n :: pre.reverse) := by
  have hrev := chained_reverse (pre ++ [n]) "" hch
  rw [List.reverse_append, List.reverse_singleton, List.singleton_append] at hrev
  have hmem' : ∀ m ∈ n :: pre.reverse, m ∈ s.nodes := by
    intro m hm
    rw [hs]
    rcases List.mem_cons.mp hm with rfl | hm
    · exact List.mem_append_right _ (by simp)
    · exact List.mem_append_left _ (List.mem_reverse.mp hm)
  have hnd' : ((s.nodes).map (fun x => x.hash)).Nodup := by rw [hs]; exact hnd
  have hget : ∀ m ∈ n :: pre.reverse, s.get m.hash = some m :=
    fun m hm => s.get_mem hnd' m (hmem' m hm)
  have hne' : ∀ m ∈ n :: pre.reverse, m.hash ≠ "" := by
    intro m hm
    rcases List.mem_cons.mp hm with rfl | hm
    · exact hne m (List.mem_append_right _ (by simp))
    · exact hne m (List.mem_append_left _ (List.mem_reverse.mp hm))
  have hfuel : pre.reverse.length < s.nodes.length + 1 := by
    rw [hs]
    simp only [List.length_reverse, List.length_append, List.length_singleton]
    omega
  exact ancestryAux_walk _ pre.reverse _ n hrev hget hne' hfuel

/-- Head of an append with a nonempty left part. -/
theorem head?_append_left {α : Type} (xs ys : List α) (h : xs ≠ []) :
    (xs ++ ys).head? = xs.head? := by
  cases xs with
  | nil => exact absurd rfl h
  | cons a rest => rfl

/-- Event the worker emits for one inserted node: the node wrapped with
the conversation root hash and the schema tag. -/
def rootEvent (rootHash : String) (now : Timestamp) (n : Node) : Event :=
  { schema := SchemaNodeV1, rootHash := rootHash, occurredAt := now, node := n }

/-- A hash at the head of the remainder of a duplicate-free node list
is absent from the processed part. -/
theorem head_hash_fresh {done : List Node} {n : Node} {rest : List Node}
    (hnd : ((done ++ n :: rest).map (fun x => x.hash)).Nodup) :
    n.hash ∉ done.map (fun x => x.hash) := by
  rw [List.map_append] at hnd
  rcases List.nodup_append.mp hnd with ⟨-, -, hdisj⟩
  intro hmem
  exact hdisj hmem (by simp)

/-- The last node of an ancestry-order result is the head of the chain
in build order. -/
theorem getLast?_cons_reverse (n : Node) (done : List Node) :
    (n :: done.reverse).getLast? = (done ++ [n]).head? := by
  have h : (done ++ [n]).reverse = n :: done.reverse := by simp
  rw [← h, List.getLast?_reverse]

/-- Processing one fresh node of a parent-linked, duplicate-free chain
stores it and publishes one event keyed by the chain head's hash. -/
theorem processNode_insert (flags : Flags) (now : Timestamp)
    (haf : flags.ancestryFails = false)
    (done : List Node) (n : Node) (evs : List Event)
    (hnd : ((done ++ [n]).map (fun x => x.hash)).Nodup)
    (hch : Chained "" (done ++ [n]))
    (hne : ∀ m ∈ done ++ [n], m.hash ≠ "") :
    processNode flags now (⟨⟨done⟩, evs⟩, true) n =
      (⟨⟨done ++ [n]⟩,
        evs ++ [rootEvent ((((done ++ [n]).head?).map (fun x => x.hash)).getD "") now n]⟩,
       true) := by
  have hnotin : n.hash ∉ done.map (fun x => x.hash) := head_hash_fresh hnd
  have hc : (Driver.mk done).containsHash n.hash = false := containsHash_eq_false hnotin
  have hanc := ancestry_of_chain (Driver.mk (done ++ [n])) done n rfl hch hnd hne
  have hrh : ((((done ++ [n]).head?).map (fun x => x.hash)).getD "") ≠ "" := by
    cases done with
    | nil => exact hne n (by simp)
    | cons d rest => exact hne d (by simp)
  simp only [processNode, put_of_not_contains hc, if_true, haf, Bool.false_eq_true,
    if_false, hanc, getLast?_cons_reverse, NewEvent, if_neg hrh, mockPublish]
  rfl

/-- Processing the remainder of a parent-linked, duplicate-free,
nonempty-hash chain from a state holding the processed part stores the
whole chain and publishes one root-keyed event per remaining node. -/
theorem processChain (flags : Flags) (now : Timestamp)
    (haf : flags.ancestryFails = false)
    (full : List Node) (hch : Chained "" full)
    (hnd : (full.map (fun x => x.hash)).Nodup)
    (hne : ∀ m ∈ full, m.hash ≠ "") :
    ∀ (rest done : List Node) (evs : List Event), done ++ rest = full →
      rest.foldl (processNode flags now) (⟨⟨done⟩, evs⟩, true) =
        (⟨⟨full⟩,
          evs ++ rest.map
            (rootEvent (((full.head?).map (fun x => x.hash)).getD "") now)⟩,
         true) := by
  intro rest
  induction rest with
  | nil =>
    intro done evs hfull
    rw [← hfull, List.append_nil]
    simp only [List.foldl_nil, List.map_nil, List.append_nil]
  | cons n rest2 ih =>
    intro done evs hfull
    rw [List.foldl_cons]
    have hfull' : (done ++ [n]) ++ rest2 = full := by rw [← hfull]; simp
    have hsub : (done ++ [n]).Sublist full := by
      rw [← hfull']
      exact List.sublist_append_left _ _
    have hnd1 : ((done ++ [n]).map (fun x => x.hash)).Nodup :=
      List.Nodup.sublist (List.Sublist.map _ hsub) hnd
    have hch1 : Chained "" (done ++ [n]) := by
      rw [← hfull'] at hch
      exact chained_append_left _ _ _ hch
    have hne1 : ∀ m ∈ done ++ [n], m.hash ≠ "" := fun m hm => hne m (hsub.subset hm)
    rw [processNode_insert flags now haf done n evs hnd1 hch1 hne1]
    have hhead : (done ++ [n]).head? = full.head? := by
      rw [← hfull']
      exact (head?_append_left _ _ (by simp)).symm
    rw [hhead]
    rw [ih (done ++ [n])
      (evs ++ [rootEvent (((full.head?).map (fun x => x.hash)).getD "") now n]) hfull']
    simp

/-- C4: with a publisher whose publish always errors, processing a job
whose built nodes have pairwise distinct nonempty hashes still stores
every node of the job, and publish is attempted exactly once per node;
the model surfaces no error to the enqueueing side by construction, the
worker loop only logging publish failures. -/
theorem publish_failure_never_aborts_storage :
    ∀ (job : Job) (now : Timestamp),
      ((buildNodes job.provider job.req job.resp now).map (fun n => n.hash)).Nodup →
      (∀ n ∈ buildNodes job.provider job.req job.resp now, n.hash ≠ "") →
      (processPool { publishErr := true } now [job]).driver.nodes =
          buildNodes job.provider job.req job.resp now ∧
      (processPool { publishErr := true } now [job]).publishCalls.length =
          (buildNodes job.provider job.req job.resp now).length := by
  intro job now hnd hne
  have hch := chained_buildNodes job.provider job.req job.resp now
  have h := processChain { publishErr := true } now rfl _ hch hnd hne
    (buildNodes job.provider job.req job.resp now) [] [] rfl
  have hpool : processPool { publishErr := true } now [job] =
      ((buildNodes job.provider job.req job.resp now).foldl
        (processNode { publishErr := true } now) (⟨⟨[]⟩, []⟩, true)).1 := rfl
  rw [hpool, h]
  exact ⟨rfl, by simp⟩

set_option maxRecDepth 40000 in
/-- Witness for publish_failure_never_aborts_storage on the first
replay-scenario turn: its three nodes have distinct nonempty hashes,
all three are stored, and three publish calls are attempted. -/
theorem publish_failure_never_aborts_storage_witness :
    (processPool { publishErr := true } "t0" [turnOneJob]).driver.nodes =
        buildNodes turnOneJob.provider turnOneJob.req turnOneJob.resp "t0" ∧
    (processPool { publishErr := true } "t0" [turnOneJob]).publishCalls.length =
        (buildNodes turnOneJob.provider turnOneJob.req turnOneJob.resp "t0").length :=
  publish_failure_never_aborts_storage turnOneJob "t0" (by decide) (by decide)

/-! ## Storage is independent of publication outcomes -/

/-- Fold of put over a node list, the storage-only effect of a worker. -/
def putAll (d : Driver) (ns : List Node) : Driver :=
  ns.foldl (fun d n => (d.put n).1) d

/-- The per-node step changes the driver exactly as put does, whatever
the publication path did. -/
theorem processNode_driver (flags : Flags) (now : Timestamp)
    (st : PoolState) (pe : Bool) (n : Node) :
    ((processNode flags now (st, pe) n).1).driver = (st.driver.put n).1 := by
  by_cases hc : st.driver.containsHash n.hash = true
  · simp [processNode, put_of_contains hc]
  · have hc' : st.driver.containsHash n.hash = false := by
      revert hc; cases st.driver.containsHash n.hash <;> simp
    simp only [processNode, put_of_not_contains hc', if_true]
    cases pe with
    | false => rfl
    | true =>
      cases hanc : (if flags.ancestryFails then none
          else (Driver.mk (st.driver.nodes ++ [n])).ancestry n.hash) with
      | none => rfl
      | some anc =>
        by_cases hroot : (((anc.getLast?).map (fun r => r.hash)).getD "") = ""
        · simp only [NewEvent, if_pos hroot, if_true]
        · simp only [NewEvent, if_neg hroot, mockPublish, if_true]

/-- Folding the per-node step changes the driver exactly as folding put
does. -/
theorem foldl_processNode_driver (flags : Flags) (now : Timestamp) :
    ∀ (ns : List Node) (st : PoolState) (pe : Bool),
      ((ns.foldl (processNode flags now) (st, pe)).1).driver = putAll st.driver ns := by
  intro ns
  induction ns with
  | nil => intro st pe; rfl
  | cons n rest ih =>
    intro st pe
    rw [List.foldl_cons]
    rcases hstep : processNode flags now (st, pe) n with ⟨st', pe'⟩
    have hdrv : st'.driver = (st.driver.put n).1 := by
      have := processNode_driver flags now st pe n
      rw [hstep] at this
      exact this
    rw [ih st' pe', hdrv]
    simp only [putAll, List.foldl_cons]

/-- Folding put over fresh distinct-hash nodes appends them all. -/
theorem putAll_fresh :
    ∀ (ns done : List Node), (((done ++ ns).map (fun x => x.hash)).Nodup) →
      putAll (Driver.mk done) ns = Driver.mk (done ++ ns) := by
  intro ns
  induction ns with
  | nil => intro done _; simp [putAll]
  | cons n rest ih =>
    intro done hnd
    have hnotin : n.hash ∉ done.map (fun x => x.hash) := head_hash_fresh hnd
    rw [putAll, List.foldl_cons, put_of_not_contains (containsHash_eq_false hnotin)]
    have hnd' : (((done ++ [n]) ++ rest).map (fun x => x.hash)).Nodup := by
      rw [List.append_assoc, List.singleton_append]
      exact hnd
    rw [show (List.foldl (fun d n => (d.put n).1) (Driver.mk (done ++ [n])) rest) =
        putAll (Driver.mk (done ++ [n])) rest from rfl]
    rw [ih (done ++ [n]) hnd']
    rw [List.append_assoc, List.singleton_append]

/-- With a driver whose ancestry always errors, the per-node step never
publishes. -/
theorem processNode_calls_ancFail (flags : Flags) (now : Timestamp)
    (st : PoolState) (pe : Bool) (n : Node)
    (haf : flags.ancestryFails = true) :
    ((processNode flags now (st, pe) n).1).publishCalls = st.publishCalls := by
  by_cases hc : st.driver.containsHash n.hash = true
  · simp [processNode, put_of_contains hc]
  · have hc' : st.driver.containsHash n.hash = false := by
      revert hc; cases st.driver.containsHash n.hash <;> simp
    cases pe with
    | false => simp [processNode, put_of_not_contains hc']
    | true => simp [processNode, put_of_not_contains hc', haf]

/-- With a driver whose ancestry always errors, folding the per-node
step over any node list publishes nothing. -/
theorem foldl_processNode_ancFail (flags : Flags) (now : Timestamp)
    (haf : flags.ancestryFails = true) :
    ∀ (ns : List Node) (st : PoolState) (pe : Bool),
      ((ns.foldl (processNode flags now) (st, pe)).1).publishCalls = st.publishCalls := by
  intro ns
  induction ns with
  | nil => intro st pe; rfl
  | cons n rest ih =>
    intro st pe
    rw [List.foldl_cons]
    rcases hstep : processNode flags now (st, pe) n with ⟨st', pe'⟩
    have hcalls : st'.publishCalls = st.publishCalls := by
      have := processNode_calls_ancFail flags now st pe n haf
      rw [hstep] at this
      exact this
    rw [ih st' pe', hcalls]

/-- C5: with a driver whose ancestry always errors, a job publishes
zero events while every node put accepted remains stored: with pairwise
distinct hashes, that is every built node of the turn. -/
theorem ancestry_failure_skips_turn_publication :
    ∀ (job : Job) (now : Timestamp) (pubErr : Bool),
      ((buildNodes job.provider job.req job.resp now).map (fun n => n.hash)).Nodup →
      (processPool { ancestryFails := true, publishErr := pubErr } now [job]).publishCalls
          = [] ∧
      (processPool { ancestryFails := true, publishErr := pubErr } now [job]).driver.nodes
          = buildNodes job.provider job.req job.resp now := by
  intro job now pubErr hnd
  constructor
  · exact foldl_processNode_ancFail { ancestryFails := true, publishErr := pubErr }
      now rfl (buildNodes job.provider job.req job.resp now) {} true
  · have h := foldl_processNode_driver { ancestryFails := true, publishErr := pubErr }
      now (buildNodes job.provider job.req job.resp now) {} true
    have h2 := putAll_fresh (buildNodes job.provider job.req job.resp now) [] hnd
    rw [show (processPool { ancestryFails := true, publishErr := pubErr } now [job]).driver
        = ((buildNodes job.provider job.req job.resp now).foldl
            (processNode { ancestryFails := true, publishErr := pubErr } now)
            (⟨⟨[]⟩, []⟩, true)).1.driver from rfl]
    rw [h]
    rw [show (({} : PoolState)).driver = Driver.mk [] from rfl]
    rw [h2]
    simp

set_option maxRecDepth 40000 in
/-- Witness for ancestry_failure_skips_turn_publication on the first
replay-scenario turn: no events, all three nodes stored. -/
theorem ancestry_failure_skips_turn_publication_witness :
    (processPool { ancestryFails := true } "t0" [turnOneJob]).publishCalls = [] ∧
    (processPool { ancestryFails := true } "t0" [turnOneJob]).driver.nodes =
      buildNodes turnOneJob.provider turnOneJob.req turnOneJob.resp "t0" :=
  ancestry_failure_skips_turn_publication turnOneJob "t0" false (by decide)

set_option maxRecDepth 100000 in
/-- C3: after enqueueing the two replay-scenario turns into a fresh
pool and draining it, the driver lists exactly five nodes, the
publisher received exactly five events, every event carries the hash of
the single root, the system message, and the driver reports exactly one
leaf, the turn-two assistant response. -/
theorem two_turn_replay_dedup :
    (replayScenario.driver.list).length = 5 ∧
    replayScenario.publishCalls.length = 5 ∧
    replayScenario.publishCalls.all (fun e => e.rootHash == replayRootHash) = true ∧
    (replayScenario.driver.leaves).length = 1 ∧
    (replayScenario.driver.leaves).all (fun n => n.hash == turnTwoRespHash) = true := by
  decide

end Tapes
